import Mathlib

/-!
Verification of the Cartlytics market-basket mining pipeline
(src/utils.py and src/app.py) against its natural-language specification.

The loader is embedded over a grid of string cells (the table that pandas
read_csv produces from the CSV text, after the fillna/astype(str) step that
precedes row cleaning).  The encoder, miner and rule generator operate over
lists and finite sets with rational supports.
-/

namespace Cartlytics

/-! ### Python string primitives used by the loader -/

/-- Model of Python str.strip: remove leading and trailing whitespace. -/
def pyStrip (s : String) : String :=
  String.mk (((s.toList.dropWhile Char.isWhitespace).reverse.dropWhile Char.isWhitespace).reverse)

/-- Model of Python str.lower (case folding on each character). -/
def pyLower (s : String) : String :=
  String.mk (s.toList.map Char.toLower)

/-- Model of Python str.isdigit: nonempty and every character a digit. -/
def pyIsDigit (s : String) : Bool :=
  !s.toList.isEmpty && s.toList.all Char.isDigit

/-! ### Transaction loader (src/utils.py, load_transactions_from_csv) -/

/-- Raw parsed table: column names plus data rows, modelling the pandas
DataFrame returned by read_csv. -/
structure RawDF where
  cols : List String
  data : List (List String)
deriving Repr, DecidableEq

/-- Model of the Python expression `0 if has_header else None` passed as the
pandas header argument: both has_header = False and has_header = None are
falsy, so only has_header = True selects header row 0. -/
def headerArg (has_header : Option Bool) : Option Nat :=
  if has_header = some true then some 0 else none

/-- Model of pd.read_csv on a parsed grid of string cells: with a header row
argument the first row gives the column names and the rest the data; without
one the columns are the integer positions (a pandas RangeIndex, rendered here
as decimal strings) and every row is data. -/
def parseTable (grid : List (List String)) : Option Nat → RawDF
  | some _ => ⟨grid.headD [], grid.tail⟩
  | none => ⟨(List.range (grid.headD []).length).map (fun i => toString i), grid⟩

/-- The pandas dtype test df.columns.dtype == int64 holds exactly when no
header row was used, since read_csv then assigns a RangeIndex of int64. -/
def colsIntDtype : Option Nat → Bool
  | none => true
  | some _ => false

/-- Generic column names Item_1, Item_2, ..., Item_k. -/
def itemNames (k : Nat) : List String :=
  (List.range k).map (fun i => "Item_" ++ toString (i + 1))

/-- Column renaming step of load_transactions_from_csv: when the columns have
int64 dtype or any column name is a digit string, replace all column names by
Item_1 .. Item_k.  The source applies this test unconditionally, in every
header mode. -/
def renameCols (df : RawDF) (h : Option Nat) : RawDF :=
  if colsIntDtype h || df.cols.any pyIsDigit then ⟨itemNames df.cols.length, df.data⟩ else df

/-- Row cleaning from load_transactions_from_csv: keep the cells x with
x nonempty, x.strip() nonempty and x.lower() different from "nan", then strip
each kept cell, preserving the cell order of the row. -/
def cleanRow (row : List String) : List String :=
  (row.filter (fun x => !(x == "") && !(pyStrip x == "") && !(pyLower x == "nan"))).map pyStrip

/-- Embedding of load_transactions_from_csv (src/utils.py): parse the grid
with the header argument derived from the caller flag, apply the column
renaming heuristic, clean each data row, and drop rows that clean to nothing.
The function returns the raw table and the transaction list; the source has
no failure path after a successful parse. -/
def load_transactions_from_csv (grid : List (List String)) (has_header : Option Bool) :
    RawDF × List (List String) :=
  let df := renameCols (parseTable grid (headerArg has_header)) (headerArg has_header)
  let txns := (df.data.map cleanRow).filter (fun row => !row.isEmpty)
  (df, txns)

/-- Reading of claim C3, following the words of the spec: keep the cells that
are nonempty after stripping and are not the text "nan", each stripped, in
the original cell order.  This definition exists to be compared with the
cleaning the source performs. -/
def cleanRowClaim (row : List String) : List String :=
  (row.filter (fun x => !(pyStrip x == "") && !(x == "nan"))).map pyStrip

/-- Amended reading of the row cleaning: the nan placeholder test is
case-insensitive, applied to the cell before stripping. -/
def cleanRowAmended (row : List String) : List String :=
  (row.filter (fun x => !(pyStrip x == "") && !(pyLower x == "nan"))).map pyStrip

/-! ### Basket encoder (src/utils.py, to_one_hot_dataframe) -/

variable {α : Type*}

/-- Item universe of a transaction list: the distinct items, sorted.  This is
the column vocabulary of the one-hot matrix. -/
def itemUniverse [LinearOrder α] (ts : List (List α)) : List α :=
  ts.flatten.toFinset.sort (· ≤ ·)

/-- Modelled from the spec: the mlxtend TransactionEncoder used by
to_one_hot_dataframe is an external dependency whose source is not in the
repository.  Per the Basket Encoder contract, the columns are the sorted
distinct items across all transactions and cell (t, i) is true exactly when
item i appears in transaction t. -/
def to_one_hot_dataframe [LinearOrder α] (ts : List (List α)) : List α × List (List Bool) :=
  let cols := itemUniverse ts
  (cols, ts.map (fun t => cols.map (fun c => decide (c ∈ t))))

/-- Recover the set of column labels whose cell is true in a one-hot row. -/
def rowItems [DecidableEq α] (cols : List α) (row : List Bool) : Finset α :=
  (((cols.zip row).filter (fun p => p.2)).map (fun p => p.1)).toFinset

/-! ### Support counting over the one-hot matrix -/

/-- Number of transactions of the database containing every item of S. -/
def suppCount [DecidableEq α] (db : List (Finset α)) (S : Finset α) : Nat :=
  (db.filter (fun t => decide (S ⊆ t))).length

/-- Support of S as a fraction of the N transactions. -/
def suppRatio [DecidableEq α] (db : List (Finset α)) (N : Nat) (S : Finset α) : ℚ :=
  (suppCount db S : ℚ) / (N : ℚ)

/-- Transaction database read off a one-hot matrix: one item set per row. -/
def matrixDB [DecidableEq α] (cols : List α) (rows : List (List Bool)) : List (Finset α) :=
  rows.map (rowItems cols)

/-! ### Frequent itemset miner -/

/-- Modelled from the spec: the mlxtend fpgrowth function called by
_mine_itemsets_and_rules is an external dependency whose source is not in the
repository.  Following the design in the spec (section 4.3), for each item
the miner extracts the conditional database of transactions containing it
(the conditional pattern base, of which the FP-tree is only a compressed
representation) and recurses on it, emitting every combination of the item
with the itemsets found conditionally, pruned by the support threshold; each
emitted itemset is paired with its support ratio. -/
def fpgrowthAux [DecidableEq α] (s : ℚ) (N : Nat) (db : List (Finset α)) :
    List α → List (Finset α × ℚ)
  | [] => []
  | i :: rest =>
    let dbi := db.filter (fun t => decide (i ∈ t))
    (if s ≤ (dbi.length : ℚ) / (N : ℚ) then
      (({i} : Finset α), (dbi.length : ℚ) / (N : ℚ)) ::
        (fpgrowthAux s N dbi rest).map (fun p => (insert i p.1, p.2))
    else []) ++ fpgrowthAux s N db rest

/-- Modelled from the spec: miner entry point; mines the one-hot matrix over
its column vocabulary, with supports relative to the row count. -/
def fpgrowth [DecidableEq α] (cols : List α) (rows : List (List Bool)) (s : ℚ) :
    List (Finset α × ℚ) :=
  fpgrowthAux s rows.length (matrixDB cols rows) cols

/-- Brute-force reference: all nonempty subsets of the item universe whose
support reaches the threshold, paired with their supports.  Itemsets are
nonempty sets of items per the data model of the spec. -/
def bruteForceFrequent [DecidableEq α] (cols : List α) (rows : List (List Bool)) (s : ℚ) :
    Finset (Finset α × ℚ) :=
  (cols.toFinset.powerset.filter
      (fun S => S.Nonempty ∧ s ≤ suppRatio (matrixDB cols rows) rows.length S)).image
    (fun S => (S, suppRatio (matrixDB cols rows) rows.length S))

/-! ### Rule generator -/

/-- Association rule with the metrics computed by the rule generator; the
conviction is none when the confidence is 1 (the infinite case). -/
structure AssocRule (α : Type*) where
  antecedents : Finset α
  consequents : Finset α
  support : ℚ
  confidence : ℚ
  lift : ℚ
  leverage : ℚ
  conviction : Option ℚ
deriving DecidableEq

/-- Candidate antecedents of a frequent itemset: every nonempty proper subset,
enumerated deterministically through the sublists of the sorted itemset. -/
def candidateAntecedents [LinearOrder α] (S : Finset α) : List (Finset α) :=
  ((S.sort (· ≤ ·)).sublists.map List.toFinset).filter
    (fun A => decide (A.Nonempty ∧ A ≠ S))

/-- Build the rule with antecedent A carved out of the frequent itemset S of
support suppS, computing the metrics of the spec (section 3). -/
def mkRule [DecidableEq α] (db : List (Finset α)) (N : Nat) (S : Finset α) (suppS : ℚ)
    (A : Finset α) : AssocRule α :=
  let C := S \ A
  let suppA := suppRatio db N A
  let suppC := suppRatio db N C
  let conf := suppS / suppA
  { antecedents := A
    consequents := C
    support := suppS
    confidence := conf
    lift := conf / suppC
    leverage := suppS - suppA * suppC
    conviction := if conf = 1 then none else some ((1 - suppC) / (1 - conf)) }

/-- Modelled from the spec: the mlxtend association_rules function called by
_mine_itemsets_and_rules is an external dependency whose source is not in the
repository.  Per the Rule Generator contract, for every frequent itemset of
size at least 2 every nonempty proper subset is a candidate antecedent, the
consequent is the rest, and a rule is retained only when its confidence
(support of the whole itemset over support of the antecedent) reaches the
confidence threshold. -/
def association_rules [LinearOrder α] (db : List (Finset α)) (N : Nat)
    (itemsets : List (Finset α × ℚ)) (minConf : ℚ) : List (AssocRule α) :=
  itemsets.flatMap (fun p =>
    if 2 ≤ p.1.card then
      ((candidateAntecedents p.1).map (mkRule db N p.1 p.2)).filter
        (fun r => decide (minConf ≤ r.confidence))
    else [])

/-- Comparator of the rule sort in _mine_itemsets_and_rules: confidence
descending, then support descending, then lift descending. -/
def ruleKeyLE (r₁ r₂ : AssocRule α) : Bool :=
  decide (r₂.confidence < r₁.confidence) ||
    (decide (r₁.confidence = r₂.confidence) &&
      (decide (r₂.support < r₁.support) ||
        (decide (r₁.support = r₂.support) && decide (r₂.lift ≤ r₁.lift))))

/-- The sort_values step of _mine_itemsets_and_rules on the three metric
columns, all descending. -/
def sortRules (rs : List (AssocRule α)) : List (AssocRule α) :=
  rs.mergeSort ruleKeyLE

/-- Descending lexicographic comparison on the three sort keys of the rule
table: confidence first, then support, then lift, each descending.  This is
the ordering the sorted rule output satisfies. -/
def ruleMetricGE (r₁ r₂ : AssocRule α) : Prop :=
  r₂.confidence < r₁.confidence ∨
    (r₁.confidence = r₂.confidence ∧
      (r₂.support < r₁.support ∨ (r₁.support = r₂.support ∧ r₂.lift ≤ r₁.lift)))

/-! ### Mining pipeline (src/app.py, _mine_itemsets_and_rules) -/

/-- Embedding of _mine_itemsets_and_rules (src/app.py): mine the one-hot
matrix; when the itemset list is empty return it with an empty rule table,
otherwise generate the rules at the confidence threshold and sort them. -/
def _mine_itemsets_and_rules [LinearOrder α] (cols : List α) (rows : List (List Bool))
    (min_support min_conf : ℚ) : List (Finset α × ℚ) × List (AssocRule α) :=
  let itemsets := fpgrowth cols rows min_support
  if itemsets.isEmpty then (itemsets, [])
  else (itemsets, sortRules (association_rules (matrixDB cols rows) rows.length itemsets min_conf))

/-! ### Loader lemmas -/

theorem pyStrip_empty : pyStrip "" = "" := by decide

theorem cleanRow_eq_cleanRowAmended (row : List String) :
    cleanRow row = cleanRowAmended row := by
  unfold cleanRow cleanRowAmended
  congr 1
  apply List.filter_congr
  intro x _
  cases hx : x == "" with
  | true =>
    have hx' : x = "" := by simpa using hx
    subst hx'
    decide
  | false => simp [hx]

theorem renameCols_data (df : RawDF) (h : Option Nat) : (renameCols df h).data = df.data := by
  unfold renameCols
  split <;> rfl

theorem load_transactions_snd (grid : List (List String)) (hdr : Option Bool) :
    (load_transactions_from_csv grid hdr).2 =
      (((load_transactions_from_csv grid hdr).1.data).map cleanRow).filter
        (fun row => !row.isEmpty) := by
  unfold load_transactions_from_csv
  simp

theorem load_transactions_fst (grid : List (List String)) (hdr : Option Bool) :
    (load_transactions_from_csv grid hdr).1 =
      renameCols (parseTable grid (headerArg hdr)) (headerArg hdr) := by
  unfold load_transactions_from_csv
  simp

theorem load_transactions_fst_data (grid : List (List String)) (hdr : Option Bool) :
    (load_transactions_from_csv grid hdr).1.data = (parseTable grid (headerArg hdr)).data := by
  rw [load_transactions_fst, renameCols_data]

/-! ### Claim C2 -/

/-- Claim C2 counterexample: an input with a header row and no data rows is
parsed, cleans to zero transactions, and load_transactions_from_csv simply
returns the raw table together with an empty transaction list; the source has
no EmptyDatasetError and no failure path after a successful parse. -/
theorem header_only_no_error_counterexample :
    load_transactions_from_csv [["a", "b"]] (some true) = (⟨["a", "b"], []⟩, []) := by
  decide

/-- Claim C2 amended: when every parsed data row cleans to nothing,
load_transactions_from_csv returns normally with an empty transaction list
(second component); no exception is modelled because the source raises
none. -/
theorem empty_cleaned_returns_empty_list (grid : List (List String)) (hdr : Option Bool)
    (h : ∀ row ∈ (load_transactions_from_csv grid hdr).1.data, cleanRow row = []) :
    (load_transactions_from_csv grid hdr).2 = [] := by
  rw [load_transactions_snd, List.filter_eq_nil_iff]
  intro r hr
  rw [List.mem_map] at hr
  obtain ⟨row, hrow, rfl⟩ := hr
  simp [h row hrow]

theorem empty_cleaned_returns_empty_list_witness :
    (∀ row ∈ (load_transactions_from_csv [[" ", ""]] none).1.data, cleanRow row = []) ∧
      (load_transactions_from_csv [[" ", ""]] none).2 = [] :=
  ⟨by decide, empty_cleaned_returns_empty_list [[" ", ""]] none (by decide)⟩

/-! ### Claim C3 -/

/-- Claim C3 counterexample: on the single row with cells NAN and bread the
source drops the cell NAN, because its lowercasing is the placeholder nan,
although NAN is not the text nan, so the transaction predicted by the claim
(keep every cell that is nonempty after stripping and is not the text nan)
differs from the one the code produces. -/
theorem nan_placeholder_counterexample :
    (load_transactions_from_csv [["NAN", "bread"]] (some false)).2 = [["bread"]] ∧
      cleanRowClaim ["NAN", "bread"] = ["NAN", "bread"] ∧
      (load_transactions_from_csv [["NAN", "bread"]] (some false)).2 ≠
        [cleanRowClaim ["NAN", "bread"]] := by
  refine ⟨by decide, by decide, ?_⟩
  decide

/-- Claim C3 amended: each transaction consists of exactly the cells of its
row that are nonempty after stripping and whose lowercase form is not the
text nan (the placeholder test is case-insensitive, on the unstripped cell),
each stripped, in the original cell order; rows cleaning to the empty list
are dropped, so every returned transaction is nonempty. -/
theorem load_transactions_rows_cleaned (grid : List (List String)) (hdr : Option Bool) :
    (load_transactions_from_csv grid hdr).2 =
      (((load_transactions_from_csv grid hdr).1.data).map cleanRowAmended).filter
        (fun row => !row.isEmpty) ∧
    ∀ t ∈ (load_transactions_from_csv grid hdr).2, t ≠ [] := by
  constructor
  · rw [load_transactions_snd]
    congr 1
    exact List.map_congr_left (fun row _ => cleanRow_eq_cleanRowAmended row)
  · intro t ht
    rw [load_transactions_snd, List.mem_filter] at ht
    intro hnil
    rw [hnil] at ht
    simp at ht

/-! ### Claim C4 -/

/-- Claim C4 counterexample: with the header flag supplied as HasHeader and a
header row of digit strings, the integer-like heuristic still fires and the
column names are replaced by Item_1, Item_2 instead of being taken from the
first row. -/
theorem has_header_rename_counterexample :
    (load_transactions_from_csv [["1", "2"], ["a", "b"]] (some true)).1.cols =
        ["Item_1", "Item_2"] ∧
      ["Item_1", "Item_2"] ≠ ["1", "2"] := by
  decide

/-- Claim C4 amended: the header flag decides only whether the first row is
header or data (HasHeader: the first row gives the parsed column names and is
never a transaction; NoHeader: every row is data), while the integer-like
renaming heuristic is applied in every mode: under HasHeader the parsed names
are kept only when none of them is a digit string, and under NoHeader the
names are always Item_1 .. Item_k. -/
theorem header_flag_behavior (grid : List (List String)) :
    ((load_transactions_from_csv grid (some true)).1.cols =
        if (grid.headD []).any pyIsDigit then itemNames (grid.headD []).length
        else grid.headD []) ∧
    (load_transactions_from_csv grid (some true)).2 =
      ((grid.tail.map cleanRow).filter (fun row => !row.isEmpty)) ∧
    (load_transactions_from_csv grid (some false)).1.cols =
      itemNames (grid.headD []).length ∧
    (load_transactions_from_csv grid (some false)).2 =
      ((grid.map cleanRow).filter (fun row => !row.isEmpty)) := by
  refine ⟨?_, ?_, ?_, ?_⟩
  · rw [load_transactions_fst]
    unfold headerArg parseTable renameCols colsIntDtype
    simp only [Bool.false_or, reduceIte]
    split <;> rfl
  · rw [load_transactions_snd, load_transactions_fst_data]
    rfl
  · rw [load_transactions_fst]
    unfold headerArg parseTable renameCols colsIntDtype
    simp
  · rw [load_transactions_snd, load_transactions_fst_data]
    rfl

/-! ### Claim C10 -/

/-- Claim C10: with the header flag unspecified the loader behaves exactly as
in NoHeader mode: the result is identical to the NoHeader result, the column
names are the synthesized Item_1 .. Item_k (the parsed RangeIndex names are
integer-like), and the first file row is kept as data, becoming the first
transaction when it cleans to a nonempty list. -/
theorem auto_detect_like_no_header (r : List String) (rest : List (List String))
    (hr : cleanRow r ≠ []) :
    load_transactions_from_csv (r :: rest) none =
        load_transactions_from_csv (r :: rest) (some false) ∧
    (load_transactions_from_csv (r :: rest) none).1.cols = itemNames r.length ∧
    (load_transactions_from_csv (r :: rest) none).2 =
      cleanRow r :: ((rest.map cleanRow).filter (fun row => !row.isEmpty)) := by
  refine ⟨rfl, ?_, ?_⟩
  · rw [load_transactions_fst]
    unfold headerArg parseTable renameCols colsIntDtype
    simp
  · rw [load_transactions_snd, load_transactions_fst_data]
    show (((r :: rest).map cleanRow).filter (fun row => !row.isEmpty)) = _
    rw [List.map_cons, List.filter_cons]
    simp [hr]

theorem auto_detect_like_no_header_witness :
    cleanRow ["a", "b"] ≠ [] ∧
      (load_transactions_from_csv [["a", "b"], ["x", "y"]] none =
          load_transactions_from_csv [["a", "b"], ["x", "y"]] (some false) ∧
        (load_transactions_from_csv [["a", "b"], ["x", "y"]] none).1.cols =
          itemNames (["a", "b"] : List String).length ∧
        (load_transactions_from_csv [["a", "b"], ["x", "y"]] none).2 =
          cleanRow ["a", "b"] ::
            (([["x", "y"]].map cleanRow).filter (fun row => !row.isEmpty))) :=
  ⟨by decide, auto_detect_like_no_header ["a", "b"] [["x", "y"]] (by decide)⟩

/-! ### Support lemmas for the miner -/

theorem suppCount_filter_mem [DecidableEq α] (db : List (Finset α)) (i : α) (S : Finset α) :
    suppCount (db.filter (fun t => decide (i ∈ t))) S = suppCount db (insert i S) := by
  unfold suppCount
  rw [List.filter_filter]
  congr 1
  apply List.filter_congr
  intro t _
  simp [Finset.insert_subset_iff, Bool.and_comm]

theorem suppCount_anti [DecidableEq α] (db : List (Finset α)) {A B : Finset α} (h : A ⊆ B) :
    suppCount db B ≤ suppCount db A := by
  unfold suppCount
  rw [← List.countP_eq_length_filter, ← List.countP_eq_length_filter]
  apply List.countP_mono_left
  intro t _ ht
  simp only [decide_eq_true_eq] at ht ⊢
  exact h.trans ht

theorem suppCount_singleton [DecidableEq α] (db : List (Finset α)) (i : α) :
    suppCount db {i} = (db.filter (fun t => decide (i ∈ t))).length := by
  unfold suppCount
  congr 1
  apply List.filter_congr
  intro t _
  simp [Finset.singleton_subset_iff]

theorem fpgrowthAux_nil [DecidableEq α] (s : ℚ) (N : Nat) (db : List (Finset α)) :
    fpgrowthAux s N db [] = [] := rfl

theorem fpgrowthAux_cons [DecidableEq α] (s : ℚ) (N : Nat) (db : List (Finset α)) (i : α)
    (rest : List α) :
    fpgrowthAux s N db (i :: rest) =
      (if s ≤ (((db.filter (fun t => decide (i ∈ t))).length : ℚ) / (N : ℚ)) then
        (({i} : Finset α), (((db.filter (fun t => decide (i ∈ t))).length : ℚ) / (N : ℚ))) ::
          (fpgrowthAux s N (db.filter (fun t => decide (i ∈ t))) rest).map
            (fun p => (insert i p.1, p.2))
      else []) ++ fpgrowthAux s N db rest := rfl

theorem fpgrowthAux_mem [DecidableEq α] (s : ℚ) (hs : 0 < s) (N : Nat) (items : List α) :
    ∀ (db : List (Finset α)) (S : Finset α) (c : ℚ),
      ((S, c) ∈ fpgrowthAux s N db items ↔
        S.Nonempty ∧ (∀ a ∈ S, a ∈ items) ∧
        c = (suppCount db S : ℚ) / (N : ℚ) ∧ s ≤ c) := by
  induction items with
  | nil =>
    intro db S c
    rw [fpgrowthAux_nil]
    constructor
    · intro h
      exact absurd h (List.not_mem_nil _)
    · rintro ⟨⟨a, ha⟩, hsub, -⟩
      exact absurd (hsub a ha) (List.not_mem_nil a)
  | cons i rest ih =>
    intro db S c
    rw [fpgrowthAux_cons]
    constructor
    · intro hmem
      rcases List.mem_append.mp hmem with hbr | htl
      · by_cases hcond :
          s ≤ (((db.filter (fun t => decide (i ∈ t))).length : ℚ) / (N : ℚ))
        · rw [if_pos hcond] at hbr
          rcases List.mem_cons.mp hbr with heq | hmap
          · have hS : S = {i} := congrArg Prod.fst heq
            have hc : c = (((db.filter (fun t => decide (i ∈ t))).length : ℚ) / (N : ℚ)) :=
              congrArg Prod.snd heq
            subst hS
            refine ⟨Finset.singleton_nonempty i, ?_, ?_, hc ▸ hcond⟩
            · intro a ha
              rw [Finset.mem_singleton] at ha
              rw [ha]
              exact List.mem_cons_self _ _
            · rw [hc, suppCount_singleton]
          · rcases List.mem_map.mp hmap with ⟨⟨S', c'⟩, hrec, hp⟩
            have hS : S = insert i S' := (congrArg Prod.fst hp).symm
            have hcc : c = c' := (congrArg Prod.snd hp).symm
            obtain ⟨hne', hsub', hc', hsc'⟩ := (ih _ S' c').mp hrec
            subst hS
            subst hcc
            refine ⟨Finset.insert_nonempty i S', ?_, ?_, hsc'⟩
            · intro a ha
              rcases Finset.mem_insert.mp ha with rfl | ha'
              · exact List.mem_cons_self _ _
              · exact List.mem_cons_of_mem i (hsub' a ha')
            · rw [hc', suppCount_filter_mem]
        · rw [if_neg hcond] at hbr
          exact absurd hbr (List.not_mem_nil _)
      · obtain ⟨hne, hsub, hc, hsc⟩ := (ih db S c).mp htl
        exact ⟨hne, fun a ha => List.mem_cons_of_mem i (hsub a ha), hc, hsc⟩
    · rintro ⟨hne, hsub, hc, hsc⟩
      rcases Nat.eq_zero_or_pos N with hN | hN
      · exfalso
        rw [hc, hN] at hsc
        norm_num at hsc
        exact absurd (lt_of_lt_of_le hs hsc) (lt_irrefl 0)
      · have hNq : (0 : ℚ) < (N : ℚ) := by exact_mod_cast hN
        by_cases hi : i ∈ S
        · have hkey : suppCount db S ≤ (db.filter (fun t => decide (i ∈ t))).length := by
            rw [← suppCount_singleton]
            exact suppCount_anti db (Finset.singleton_subset_iff.mpr hi)
          have hcond :
              s ≤ (((db.filter (fun t => decide (i ∈ t))).length : ℚ) / (N : ℚ)) := by
            refine le_trans (hc ▸ hsc) ?_
            exact (div_le_div_iff_of_pos_right hNq).mpr (by exact_mod_cast hkey)
          rw [List.mem_append, if_pos hcond]
          left
          rw [List.mem_cons]
          by_cases hSi : S = {i}
          · left
            rw [Prod.mk.injEq]
            refine ⟨hSi, ?_⟩
            rw [hc, hSi, suppCount_singleton]
          · right
            rw [List.mem_map]
            refine ⟨(S.erase i, c), ?_, ?_⟩
            · rw [ih]
              refine ⟨?_, ?_, ?_, hsc⟩
              · rw [Finset.nonempty_iff_ne_empty]
                intro hemp
                rcases (Finset.erase_eq_empty_iff S i).mp hemp with h0 | h1
                · exact hne.ne_empty h0
                · exact hSi h1
              · intro a ha
                have hai : a ≠ i := Finset.ne_of_mem_erase ha
                rcases List.mem_cons.mp (hsub a (Finset.mem_of_mem_erase ha)) with rfl | h
                · exact absurd rfl hai
                · exact h
              · rw [hc, suppCount_filter_mem, Finset.insert_erase hi]
            · rw [Prod.mk.injEq]
              exact ⟨Finset.insert_erase hi, rfl⟩
        · have hsub' : ∀ a ∈ S, a ∈ rest := by
            intro a ha
            rcases List.mem_cons.mp (hsub a ha) with rfl | h
            · exact absurd ha hi
            · exact h
          rw [List.mem_append]
          right
          rw [ih]
          exact ⟨hne, hsub', hc, hsc⟩




/-- Claim C1: for every one-hot matrix and positive support threshold, the
miner returns exactly the set of nonempty itemsets whose support reaches the
threshold, each paired with its support value: its output is set-equal to the
brute-force enumeration of the subsets of the item universe filtered by
support at least the threshold, the comparison being non-strict. -/
theorem fpgrowth_exact [DecidableEq α] (cols : List α) (rows : List (List Bool)) (s : ℚ)
    (hs : 0 < s) :
    (fpgrowth cols rows s).toFinset = bruteForceFrequent cols rows s := by
  ext ⟨S, c⟩
  rw [List.mem_toFinset]
  unfold fpgrowth bruteForceFrequent
  rw [fpgrowthAux_mem s hs, Finset.mem_image]
  constructor
  · rintro ⟨hne, hsub, hc, hsc⟩
    refine ⟨S, ?_, ?_⟩
    · rw [Finset.mem_filter, Finset.mem_powerset]
      refine ⟨fun a ha => List.mem_toFinset.mpr (hsub a ha), hne, ?_⟩
      rw [suppRatio]
      exact hc ▸ hsc
    · rw [Prod.mk.injEq]
      refine ⟨rfl, ?_⟩
      rw [suppRatio, ← hc]
  · rintro ⟨S', hS', heq⟩
    rw [Finset.mem_filter, Finset.mem_powerset] at hS'
    obtain ⟨hsubset, hne', hfreq⟩ := hS'
    obtain ⟨h1, h2⟩ := Prod.mk.injEq .. |>.mp heq
    subst h1
    subst h2
    rw [suppRatio] at hfreq
    exact ⟨hne', fun a ha => List.mem_toFinset.mp (hsubset ha), rfl, hfreq⟩

theorem fpgrowth_exact_witness :
    0 < (1 / 2 : ℚ) ∧
      (fpgrowth [0, 1] [[true, true], [true, false]] (1 / 2 : ℚ)).toFinset =
        bruteForceFrequent [0, 1] [[true, true], [true, false]] (1 / 2 : ℚ) :=
  ⟨by norm_num, fpgrowth_exact [0, 1] [[true, true], [true, false]] (1 / 2 : ℚ) (by norm_num)⟩

theorem zip_map_filter (cols : List α) (f : α → Bool) :
    (((cols.zip (cols.map f)).filter (fun p => p.2)).map (fun p => p.1)) = cols.filter f := by
  induction cols with
  | nil => rfl
  | cons c cs ih => cases hf : f c <;> simp [hf, ih, List.filter_cons]

/-- Claim C5: encoding a transaction list to the one-hot matrix and then
recovering, for each row, the set of column labels whose cell is true yields
exactly the de-duplicated item set of the corresponding input transaction. -/
theorem one_hot_round_trip [LinearOrder α] (ts : List (List α)) :
    (to_one_hot_dataframe ts).2.map (rowItems (to_one_hot_dataframe ts).1) =
      ts.map List.toFinset := by
  unfold to_one_hot_dataframe
  rw [List.map_map]
  apply List.map_congr_left
  intro t ht
  show rowItems (itemUniverse ts) ((itemUniverse ts).map (fun c => decide (c ∈ t))) = t.toFinset
  unfold rowItems
  rw [zip_map_filter]
  ext a
  simp only [List.mem_toFinset, List.mem_filter, decide_eq_true_eq]
  constructor
  · rintro ⟨-, ha⟩
    exact ha
  · intro ha
    refine ⟨?_, ha⟩
    unfold itemUniverse
    rw [Finset.mem_sort, List.mem_toFinset, List.mem_flatten]
    exact ⟨t, ht, ha⟩



theorem ruleKeyLE_iff (r₁ r₂ : AssocRule α) :
    ruleKeyLE r₁ r₂ = true ↔ ruleMetricGE r₁ r₂ := by
  unfold ruleKeyLE ruleMetricGE
  simp [Bool.or_eq_true, Bool.and_eq_true, decide_eq_true_eq]

theorem ruleKeyLE_total (r₁ r₂ : AssocRule α) :
    (ruleKeyLE r₁ r₂ || ruleKeyLE r₂ r₁) = true := by
  rw [Bool.or_eq_true, ruleKeyLE_iff, ruleKeyLE_iff]
  unfold ruleMetricGE
  rcases lt_trichotomy r₁.confidence r₂.confidence with h | h | h
  · right; left; exact h
  · rcases lt_trichotomy r₁.support r₂.support with h2 | h2 | h2
    · right; right; exact ⟨h.symm, Or.inl h2⟩
    · rcases le_total r₂.lift r₁.lift with h3 | h3
      · left; right; exact ⟨h, Or.inr ⟨h2, h3⟩⟩
      · right; right; exact ⟨h.symm, Or.inr ⟨h2.symm, h3⟩⟩
    · left; right; exact ⟨h, Or.inl h2⟩
  · left; left; exact h

theorem ruleKeyLE_trans (r₁ r₂ r₃ : AssocRule α) (h12 : ruleKeyLE r₁ r₂ = true)
    (h23 : ruleKeyLE r₂ r₃ = true) : ruleKeyLE r₁ r₃ = true := by
  rw [ruleKeyLE_iff] at h12 h23 ⊢
  unfold ruleMetricGE at h12 h23 ⊢
  rcases h12 with hc12 | ⟨hc12, hrest12⟩
  · rcases h23 with hc23 | ⟨hc23, hrest23⟩
    · left; exact hc23.trans hc12
    · left; exact hc23 ▸ hc12
  · rcases h23 with hc23 | ⟨hc23, hrest23⟩
    · left; exact hc12 ▸ hc23
    · refine Or.inr ⟨hc12.trans hc23, ?_⟩
      rcases hrest12 with hs12 | ⟨hs12, hl12⟩
      · rcases hrest23 with hs23 | ⟨hs23, hl23⟩
        · left; exact hs23.trans hs12
        · left; exact hs23 ▸ hs12
      · rcases hrest23 with hs23 | ⟨hs23, hl23⟩
        · left; exact hs12 ▸ hs23
        · right; exact ⟨hs12.trans hs23, hl23.trans hl12⟩

/-- Claim C7: the rule output of the pipeline is sorted by confidence
descending, then support descending, then lift descending, and is a
permutation of the generated rules; being a pure function of its input, the
tie order is deterministic across runs. -/
theorem rules_sorted_by_metrics [LinearOrder α] (cols : List α) (rows : List (List Bool))
    (s conf : ℚ) :
    ((_mine_itemsets_and_rules cols rows s conf).2).Pairwise ruleMetricGE ∧
      ((_mine_itemsets_and_rules cols rows s conf).2).Perm
        (if (fpgrowth cols rows s).isEmpty then []
         else association_rules (matrixDB cols rows) rows.length (fpgrowth cols rows s) conf) := by
  unfold _mine_itemsets_and_rules
  by_cases hemp : (fpgrowth cols rows s).isEmpty
  · simp [hemp]
  · simp only [hemp, if_false, Bool.false_eq_true]
    constructor
    · have hsorted := List.sorted_mergeSort
        (fun a b c => ruleKeyLE_trans a b c)
        (fun a b => ruleKeyLE_total a b)
        (association_rules (matrixDB cols rows) rows.length (fpgrowth cols rows s) conf)
      unfold sortRules
      exact hsorted.imp (fun h => (ruleKeyLE_iff _ _).mp h)
    · exact List.mergeSort_perm _ _



/-- Claim C8: when no nonempty itemset over the item universe reaches the
support threshold, the pipeline returns the empty itemset list paired with
the empty rule list; both stages return a value and no error is raised. -/
theorem high_threshold_empty_result [LinearOrder α] (cols : List α) (rows : List (List Bool))
    (s conf : ℚ) (hs : 0 < s)
    (h : ∀ S ∈ cols.toFinset.powerset, S.Nonempty →
      suppRatio (matrixDB cols rows) rows.length S < s) :
    _mine_itemsets_and_rules cols rows s conf = ([], []) := by
  have hfp : fpgrowth cols rows s = [] := by
    rw [List.eq_nil_iff_forall_not_mem]
    rintro ⟨S, c⟩ hmem
    rw [fpgrowth, fpgrowthAux_mem s hs] at hmem
    obtain ⟨hne, hsub, hc, hsc⟩ := hmem
    have hS : S ∈ cols.toFinset.powerset := by
      rw [Finset.mem_powerset]
      intro a ha
      exact List.mem_toFinset.mpr (hsub a ha)
    have hlt := h S hS hne
    rw [suppRatio] at hlt
    rw [hc] at hsc
    exact absurd (lt_of_le_of_lt hsc hlt) (lt_irrefl _)
  unfold _mine_itemsets_and_rules
  simp [hfp]

theorem high_threshold_empty_result_witness :
    (0 < (9 / 10 : ℚ) ∧
      ∀ S ∈ ([0] : List ℕ).toFinset.powerset, S.Nonempty →
        suppRatio (matrixDB [0] [[true], [false]]) ([[true], [false]] : List (List Bool)).length S
          < (9 / 10 : ℚ)) ∧
      _mine_itemsets_and_rules [0] [[true], [false]] (9 / 10 : ℚ) (1 / 2 : ℚ) = ([], []) :=
  ⟨⟨by norm_num, by with_unfolding_all decide⟩,
    high_threshold_empty_result [0] [[true], [false]] (9 / 10 : ℚ) (1 / 2 : ℚ) (by norm_num)
      (by with_unfolding_all decide)⟩

theorem candidateAntecedents_spec [LinearOrder α] {S A : Finset α}
    (h : A ∈ candidateAntecedents S) : A ⊆ S ∧ A.Nonempty ∧ A ≠ S := by
  unfold candidateAntecedents at h
  rw [List.mem_filter] at h
  obtain ⟨hmem, hpred⟩ := h
  rw [List.mem_map] at hmem
  obtain ⟨l, hl, rfl⟩ := hmem
  rw [List.mem_sublists] at hl
  have hsub : l.toFinset ⊆ S := by
    intro a ha
    rw [List.mem_toFinset] at ha
    exact (Finset.mem_sort _).mp (hl.subset ha)
  have hp := of_decide_eq_true hpred
  exact ⟨hsub, hp.1, hp.2⟩

/-- Claim C9: every rule produced by the pipeline has confidence between 0
and 1, and at least the caller confidence threshold; candidate rules below
the threshold are filtered out. -/
theorem rule_confidence_bounds [LinearOrder α] (cols : List α) (rows : List (List Bool))
    (s conf : ℚ) (hs : 0 < s) (r : AssocRule α)
    (hr : r ∈ (_mine_itemsets_and_rules cols rows s conf).2) :
    0 ≤ r.confidence ∧ r.confidence ≤ 1 ∧ conf ≤ r.confidence := by
  unfold _mine_itemsets_and_rules at hr
  by_cases hemp : (fpgrowth cols rows s).isEmpty
  · simp [hemp] at hr
  · simp only [hemp, if_false, Bool.false_eq_true] at hr
    have hr' : r ∈ association_rules (matrixDB cols rows) rows.length
        (fpgrowth cols rows s) conf := by
      have hperm := List.mergeSort_perm
        (association_rules (matrixDB cols rows) rows.length (fpgrowth cols rows s) conf)
        ruleKeyLE
      exact hperm.mem_iff.mp hr
    rw [association_rules, List.mem_flatMap] at hr'
    obtain ⟨⟨S, c⟩, hpmem, hrp⟩ := hr'
    by_cases hcard : 2 ≤ S.card
    · rw [if_pos hcard, List.mem_filter] at hrp
      obtain ⟨hmap, hpred⟩ := hrp
      have hconf : conf ≤ r.confidence := of_decide_eq_true hpred
      rw [List.mem_map] at hmap
      obtain ⟨A, hA, hrA⟩ := hmap
      obtain ⟨hAS, hAne, hAneS⟩ := candidateAntecedents_spec hA
      rw [fpgrowth, fpgrowthAux_mem s hs] at hpmem
      obtain ⟨hne, hsub, hc, hsc⟩ := hpmem
      -- c is positive, hence the row count and the support count are positive
      have hcpos : 0 < c := lt_of_lt_of_le hs hsc
      have hNpos : 0 < rows.length := by
        by_contra hN0
        rw [Nat.not_lt, Nat.le_zero] at hN0
        rw [hN0] at hc
        norm_num at hc
        rw [hc] at hcpos
        exact lt_irrefl 0 hcpos
      have hNq : (0 : ℚ) < (rows.length : ℚ) := by exact_mod_cast hNpos
      have hScount : 0 < suppCount (matrixDB cols rows) S := by
        by_contra hS0
        rw [Nat.not_lt, Nat.le_zero] at hS0
        rw [hS0] at hc
        norm_num at hc
        rw [hc] at hcpos
        exact lt_irrefl 0 hcpos
      have hAcount : suppCount (matrixDB cols rows) S ≤ suppCount (matrixDB cols rows) A :=
        suppCount_anti _ hAS
      have hApos : (0 : ℚ) < suppRatio (matrixDB cols rows) rows.length A := by
        rw [suppRatio]
        apply div_pos ?_ hNq
        exact_mod_cast lt_of_lt_of_le hScount hAcount
      have hconf_eq : r.confidence = c / suppRatio (matrixDB cols rows) rows.length A := by
        rw [← hrA]
        simp [mkRule]
      refine ⟨?_, ?_, hconf⟩
      · rw [hconf_eq]
        exact div_nonneg (le_of_lt hcpos) (le_of_lt hApos)
      · rw [hconf_eq, div_le_one hApos, hc, suppRatio]
        rw [div_le_div_iff_of_pos_right hNq]
        exact_mod_cast hAcount
    · rw [if_neg hcard] at hrp
      exact absurd hrp (List.not_mem_nil r)

theorem rule_confidence_bounds_witness :
    (0 < (1 / 2 : ℚ) ∧
      (⟨{1}, {0}, 1 / 2, 1, 1, 0, none⟩ : AssocRule ℕ) ∈
        (_mine_itemsets_and_rules [0, 1] [[true, true], [true, false]]
          (1 / 2 : ℚ) (1 / 2 : ℚ)).2) ∧
      (0 ≤ (⟨{1}, {0}, 1 / 2, 1, 1, 0, none⟩ : AssocRule ℕ).confidence ∧
        (⟨{1}, {0}, 1 / 2, 1, 1, 0, none⟩ : AssocRule ℕ).confidence ≤ 1 ∧
        (1 / 2 : ℚ) ≤ (⟨{1}, {0}, 1 / 2, 1, 1, 0, none⟩ : AssocRule ℕ).confidence) :=
  ⟨⟨by norm_num, by with_unfolding_all decide⟩,
    rule_confidence_bounds [0, 1] [[true, true], [true, false]] (1 / 2 : ℚ) (1 / 2 : ℚ)
      (by norm_num) ⟨{1}, {0}, 1 / 2, 1, 1, 0, none⟩ (by with_unfolding_all decide)⟩

/-- Claim C6: the pipeline stages are deterministic functions of their
inputs: encoding equal transaction lists yields identical one-hot matrices,
and mining them with equal thresholds yields identical itemset and rule
outputs, in identical order. -/
theorem pipeline_deterministic [LinearOrder α] (ts₁ ts₂ : List (List α)) (s₁ s₂ c₁ c₂ : ℚ)
    (hts : ts₁ = ts₂) (hs : s₁ = s₂) (hc : c₁ = c₂) :
    to_one_hot_dataframe ts₁ = to_one_hot_dataframe ts₂ ∧
      _mine_itemsets_and_rules (to_one_hot_dataframe ts₁).1 (to_one_hot_dataframe ts₁).2 s₁ c₁ =
        _mine_itemsets_and_rules (to_one_hot_dataframe ts₂).1 (to_one_hot_dataframe ts₂).2
          s₂ c₂ := by
  subst hts
  subst hs
  subst hc
  exact ⟨rfl, rfl⟩

theorem pipeline_deterministic_witness :
    (([["b", "a"], ["a"]] : List (List String)) = [["b", "a"], ["a"]] ∧ (1 / 2 : ℚ) = 1 / 2 ∧
        (3 / 10 : ℚ) = 3 / 10) ∧
      (to_one_hot_dataframe [["b", "a"], ["a"]] = to_one_hot_dataframe [["b", "a"], ["a"]] ∧
        _mine_itemsets_and_rules (to_one_hot_dataframe [["b", "a"], ["a"]]).1
            (to_one_hot_dataframe [["b", "a"], ["a"]]).2 (1 / 2 : ℚ) (3 / 10 : ℚ) =
          _mine_itemsets_and_rules (to_one_hot_dataframe [["b", "a"], ["a"]]).1
            (to_one_hot_dataframe [["b", "a"], ["a"]]).2 (1 / 2 : ℚ) (3 / 10 : ℚ)) :=
  ⟨⟨rfl, rfl, rfl⟩,
    pipeline_deterministic [["b", "a"], ["a"]] [["b", "a"], ["a"]] (1 / 2 : ℚ) (1 / 2 : ℚ)
      (3 / 10 : ℚ) (3 / 10 : ℚ) rfl rfl rfl⟩

end Cartlytics
